import Mathlib

/-!
Verification of the gedo single-header library (src/Gedo.h) against its
natural-language specification.  The development shallowly embeds the
memory-block/allocator core and the containers built on it:

* addresses are natural numbers, with `0` playing the role of the null
  pointer (the model's `GEDO_MALLOC` hands out fresh non-zero addresses);
* byte memory is a total function `Nat → Nat`;
* `size_t` values are naturals, with an explicit `% 2 ^ 64` where the C
  code's unsigned wrap-around matters (`ConcatStrings`);
* a `GEDO_ASSERT` that can fire is reflected by an explicit `ok : Bool`
  field (or an explicit failure branch) in the operation's result.

Every definition is translated from the corresponding function of
src/Gedo.h; the source line is cited next to each definition.
-/

set_option autoImplicit false

/-- MemoryBlock (Gedo.h:422-426): a `{pointer, size}` pair describing a
contiguous byte range.  `data = 0` models the null pointer. -/
structure MemoryBlock where
  data : Nat
  size : Nat
deriving DecidableEq, Repr

/-- ZeroMemoryBlock (Gedo.h:1009-1012): `memset(block.data, 0, block.size)`
on a byte memory `m`. -/
def ZeroMemoryBlock (m : Nat → Nat) (block : MemoryBlock) : Nat → Nat :=
  fun a => if block.data ≤ a ∧ a < block.data + block.size then 0 else m a

/-- Model of `GEDO_MEMCPY(dst, src, n)`: the `n` bytes starting at `dst`
are replaced by the bytes starting at `src` of the pre-state `m`. -/
def memCopy (m : Nat → Nat) (dst src n : Nat) : Nat → Nat :=
  fun a => if dst ≤ a ∧ a < dst + n then m (src + (a - dst)) else m a

/-- Model of storing an `n`-byte value `v` at address `addr`
(little-endian byte image), as in `data()[count++] = d`. -/
def storeBytes (m : Nat → Nat) (addr n v : Nat) : Nat → Nat :=
  fun a => if addr ≤ a ∧ a < addr + n then v / 256 ^ (a - addr) % 256 else m a

/-- IsPointerInsideMemoryBlock (Gedo.h:996-1001):
`ptr >= block.data && ptr < block.data + block.size`. -/
def IsPointerInsideMemoryBlock (ptr : Nat) (block : MemoryBlock) : Bool :=
  decide (block.data ≤ ptr) && decide (ptr < block.data + block.size)

/-- IsMemoryBlockInside (Gedo.h:1003-1007): both the start pointer and the
one-past-end pointer of `small` must satisfy the (end-exclusive) pointer
range check against `big`. -/
def IsMemoryBlockInside (big small : MemoryBlock) : Bool :=
  IsPointerInsideMemoryBlock small.data big &&
    IsPointerInsideMemoryBlock (small.data + small.size) big

/-- Heap state backing the model of `GEDO_MALLOC`: `next` is the next fresh
address (kept positive, so malloc never returns the null pointer 0), and
`mem` is the byte memory. -/
structure MallocHeap where
  next : Nat
  mem : Nat → Nat

/-- Fresh heap used as the starting state of concrete executions. -/
def initHeap : MallocHeap := ⟨1, fun _ => 0⟩

/-- MallocAllocator::AllocateMemoryBlock (Gedo.h:1101-1112): obtains a fresh
block of `bytes` bytes from the heap and zero-fills it.  The model's malloc
always succeeds with a fresh non-null address (the `+ 1` spacing keeps
distinct calls at distinct addresses even for zero-sized requests, matching
a malloc that returns unique pointers). -/
def mallocAllocate (h : MallocHeap) (bytes : Nat) : MallocHeap × MemoryBlock :=
  let blk : MemoryBlock := ⟨h.next, bytes⟩
  (⟨h.next + bytes + 1, ZeroMemoryBlock h.mem blk⟩, blk)

/-- Result of a `FreeMemoryBlock` call: `ret` is the returned boolean,
`blk` the caller's block after the call, and `ok` records that no
`GEDO_ASSERT` fired during the call. -/
structure FreeResult where
  ret : Bool
  blk : MemoryBlock
  ok : Bool
deriving DecidableEq, Repr

/-- MallocAllocator::FreeMemoryBlock (Gedo.h:1114-1121): asserts
`block.data` is non-null (`ok`), frees it, nulls the caller's block and
returns `true` unconditionally — there is no ownership/range check. -/
def mallocFree (blk : MemoryBlock) : FreeResult :=
  ⟨true, ⟨0, 0⟩, decide (blk.data ≠ 0)⟩

/-- LinearAllocator (Gedo.h:435-443): a bump cursor `offset` into a fixed
`arena` block. -/
structure LinearAllocator where
  offset : Nat
  arena : MemoryBlock
deriving DecidableEq, Repr

/-- CreateLinearAllocator (Gedo.h:1034-1041): the arena is one upfront
heap allocation of `bytes` bytes (its base address is abstracted as
`base`), zero-filled, with `offset = 0`. -/
def createLinearAllocator (base bytes : Nat) : LinearAllocator :=
  ⟨0, ⟨base, bytes⟩⟩

/-- Result of LinearAllocator::AllocateMemoryBlock: post-state of the
allocator, the byte memory, the returned block, and whether the
out-of-space `GEDO_ASSERT_MSG` did not fire. -/
structure LinearAllocResult where
  alloc : LinearAllocator
  mem : Nat → Nat
  blk : MemoryBlock
  ok : Bool

/-- LinearAllocator::AllocateMemoryBlock (Gedo.h:1058-1071): if
`offset + bytes <= arena.size`, returns the zero-filled range at
`offset + arena.data` and advances `offset` by `bytes`; otherwise
`GEDO_ASSERT_MSG` fires (`ok = false`) and the default-constructed empty
block is returned with the allocator unchanged. -/
def linearAllocate (la : LinearAllocator) (m : Nat → Nat) (bytes : Nat) :
    LinearAllocResult :=
  if la.offset + bytes ≤ la.arena.size then
    let blk : MemoryBlock := ⟨la.offset + la.arena.data, bytes⟩
    ⟨⟨la.offset + bytes, la.arena⟩, ZeroMemoryBlock m blk, blk, true⟩
  else
    ⟨la, m, ⟨0, 0⟩, false⟩

/-- LinearAllocator::FreeMemoryBlock (Gedo.h:1073-1083): a no-op for the
arena space; if the block lies inside the arena (per
`IsMemoryBlockInside`) the caller's block is nulled and `true` returned,
otherwise `false` with the block untouched. -/
def linearFree (la : LinearAllocator) (blk : MemoryBlock) : Bool × MemoryBlock :=
  if IsMemoryBlockInside la.arena blk then (true, ⟨0, 0⟩) else (false, blk)

/-- LinearAllocator::ResetAllocator (Gedo.h:1053-1056): `offset = 0`. -/
def linearReset (la : LinearAllocator) : LinearAllocator :=
  ⟨0, la.arena⟩

/-- Outcome of a sequence of LinearAllocator::AllocateMemoryBlock calls:
final allocator, final memory, and the list of blocks actually issued
(failed requests issue nothing). -/
structure RunResult where
  alloc : LinearAllocator
  mem : Nat → Nat
  blks : List MemoryBlock

/-- Sequential driver for LinearAllocator::AllocateMemoryBlock: performs
the requests in order, collecting the successfully issued blocks. -/
def runLinearAllocs : LinearAllocator → (Nat → Nat) → List Nat → RunResult
  | la, m, [] => ⟨la, m, []⟩
  | la, m, n :: ns =>
    let r := linearAllocate la m n
    let rest := runLinearAllocs r.alloc r.mem ns
    ⟨rest.alloc, rest.mem, (if r.ok then [r.blk] else []) ++ rest.blks⟩

/-- Array (Gedo.h:581-711): the three data members of `Array<T>` — the
allocator pointer (`none` models the `NULL` stored by move operations;
`some 0` models `&GetDefaultAllocator()`), the owned block, and the
element count.  The element type is abstracted by its byte size `esz`
(`sizeof(T)`, positive), passed to each operation. -/
structure ArrayState where
  allocator : Option Nat
  block : MemoryBlock
  count : Nat
deriving DecidableEq, Repr

/-- Default-constructed `Array<T>` (Gedo.h:584-588): default allocator,
null block, zero count. -/
def emptyArray : ArrayState := ⟨some 0, ⟨0, 0⟩, 0⟩

/-- Array::capacity (Gedo.h:638-641): `block.size / sizeof(T)`. -/
def arrayCapacity (esz : Nat) (a : ArrayState) : Nat :=
  a.block.size / esz

/-- Array::reserve (Gedo.h:698-710): if `capacity() < s`, allocate
`s * sizeof(T)` bytes through the allocator (here the malloc allocator
backing the process-wide default), copy the old block's bytes into it,
free the old block (a no-op on the byte memory) and adopt the new block. -/
def arrayReserve (esz : Nat) (h : MallocHeap) (a : ArrayState) (s : Nat) :
    MallocHeap × ArrayState :=
  if arrayCapacity esz a < s then
    let p := mallocAllocate h (s * esz)
    let m2 := if a.block.data ≠ 0 then
                memCopy p.1.mem p.2.data a.block.data a.block.size
              else p.1.mem
    (⟨p.1.next, m2⟩, ⟨a.allocator, p.2, a.count⟩)
  else (h, a)

/-- Array::resize (Gedo.h:690-697): `reserve(s)` when `capacity() < s`,
then `count = s`. -/
def arrayResize (esz : Nat) (h : MallocHeap) (a : ArrayState) (s : Nat) :
    MallocHeap × ArrayState :=
  let p := if arrayCapacity esz a < s then arrayReserve esz h a s else (h, a)
  (p.1, ⟨p.2.allocator, p.2.block, s⟩)

/-- Array::push_back (Gedo.h:676-685): if `size() >= capacity()`, grow via
`resize(s ? 2*s : 8)` and restore `count = s`; then store the element at
slot `count` and increment `count`. -/
def arrayPushBack (esz : Nat) (h : MallocHeap) (a : ArrayState) (v : Nat) :
    MallocHeap × ArrayState :=
  let p :=
    if a.count ≥ arrayCapacity esz a then
      let s := a.count
      let q := arrayResize esz h a (if s ≠ 0 then 2 * s else 8)
      (q.1, ⟨q.2.allocator, q.2.block, s⟩)
    else (h, a)
  (⟨p.1.next, storeBytes p.1.mem (p.2.block.data + p.2.count * esz) esz v⟩,
   ⟨p.2.allocator, p.2.block, p.2.count + 1⟩)

/-- Iterated Array::push_back of the value `0`, `n` times. -/
def arrayPushN (esz : Nat) : Nat → MallocHeap × ArrayState → MallocHeap × ArrayState
  | 0, p => p
  | n + 1, p => arrayPushN esz n (arrayPushBack esz p.1 p.2 0)

/-- Array move constructor (Gedo.h:611-619): the destination takes the
source's allocator, block and count; the source is left with a `NULL`
allocator, an empty block and zero count.  Returns (destination, source
after the move). -/
def arrayMoveCtor (s : ArrayState) : ArrayState × ArrayState :=
  (⟨s.allocator, s.block, s.count⟩, ⟨none, ⟨0, 0⟩, 0⟩)

/-- Array move assignment (Gedo.h:620-629): identical field transfer; the
destination's previous members are overwritten.  Returns (destination
after assignment, source after assignment). -/
def arrayMoveAssign (_dest src : ArrayState) : ArrayState × ArrayState :=
  (⟨src.allocator, src.block, src.count⟩, ⟨none, ⟨0, 0⟩, 0⟩)

/-- Array destructor (Gedo.h:589-595): calls
`allocator->FreeMemoryBlock(block)` exactly when `block.data` is non-null.
The returned value is the block passed to the free call (`none` when no
free happens). -/
def arrayDtorFree (a : ArrayState) : Option MemoryBlock :=
  if a.block.data ≠ 0 then some a.block else none

/-- String (Gedo.h:762-909): owned block and byte count of the `String`
container (the allocator is the malloc-backed default, threaded as
`MallocHeap`). -/
structure StringState where
  block : MemoryBlock
  count : Nat
deriving DecidableEq, Repr

/-- Default-constructed String (Gedo.h:768): null block, zero count. -/
def emptyString : StringState := ⟨⟨0, 0⟩, 0⟩

/-- String::reserve (Gedo.h:875-889): when `capacity() < s` — and
`capacity()` is `block.size` (Gedo.h:829-832) — allocate `s + 1` bytes,
zero them, copy the old block's bytes over, free the old block and adopt
the new one. -/
def stringReserve (h : MallocHeap) (st : StringState) (s : Nat) :
    MallocHeap × StringState :=
  let c := st.block.size
  if c < s then
    let p := mallocAllocate h (s + 1)
    let m2 := ZeroMemoryBlock p.1.mem p.2
    let m3 := if st.block.data ≠ 0 then
                memCopy m2 p.2.data st.block.data st.block.size
              else m2
    (⟨p.1.next, m3⟩, ⟨p.2, st.count⟩)
  else (h, st)

/-- String::resize (Gedo.h:867-874): `reserve(s)` when `capacity() < s`,
then `count = s`. -/
def stringResize (h : MallocHeap) (st : StringState) (s : Nat) :
    MallocHeap × StringState :=
  let p := if st.block.size < s then stringReserve h st s else (h, st)
  (p.1, ⟨p.2.block, s⟩)

/-- String::append(char) (Gedo.h:899-908): if `size() >= capacity()`, grow
via `resize(s ? 2*s : 8)` and restore `count = s`; then store the byte `c`
at index `count` and increment `count`. -/
def stringAppendChar (h : MallocHeap) (st : StringState) (c : Nat) :
    MallocHeap × StringState :=
  let p :=
    if st.count ≥ st.block.size then
      let s := st.count
      let q := stringResize h st (if s ≠ 0 then 2 * s else 8)
      (q.1, ⟨q.2.block, s⟩)
    else (h, st)
  (⟨p.1.next, storeBytes p.1.mem (p.2.block.data + p.2.count) 1 c⟩,
   ⟨p.2.block, p.2.count + 1⟩)

/-- Iterated String::append(char) of the byte `c`, `n` times. -/
def appendCharN (c : Nat) : Nat → MallocHeap × StringState → MallocHeap × StringState
  | 0, p => p
  | n + 1, p => appendCharN c n (stringAppendChar p.1 p.2 c)

/-!
String algorithms (SplitString / ConcatStrings) are specified at the level
of string contents: a C string is the list of its bytes before the NUL
terminator (so a byte list with no `0` element), and a `String` container
is represented by its `count` counted bytes (a byte list).  `append(char)`
adds one byte to the content, `append(const char*)` adds the bytes up to
the argument's first NUL — exactly the content effect of the byte-level
operations above.
-/

/-- StringLength (Gedo.h:1431-1439): scans until the NUL terminator.  On a
byte list representing a C string (no `0` element) this is the list
length. -/
def StringLength (s : List Nat) : Nat :=
  (s.takeWhile (fun c => decide (c ≠ 0))).length

/-- Bytes read from a String's `data()` by a C-string consumer: the bytes
before the first `0`. -/
def cstrOf (s : List Nat) : List Nat :=
  s.takeWhile (fun c => decide (c ≠ 0))

/-- CopyString (Gedo.h:1419-1429): content of the String built by
appending `string[from]`, …, `string[to - 1]` to a fresh String (the
`reserve(to - from + 1)` only pre-allocates capacity). -/
def CopyString (s : List Nat) (a b : Nat) : List Nat :=
  (List.range (b - a)).map (fun k => s.getD (a + k) 0)

/-- Inner loop `while (string[i] == delim && i < len) i++;` of SplitString
(Gedo.h:1642-1645): skips the run of delimiter bytes starting at `i`.  In
the source the read of `string[i]` at `i = len` hits the NUL terminator
and stops the loop, which the length guard reproduces.  `fuel` bounds the
recursion; every use supplies at least `s.length + 1`. -/
def skipDelims : Nat → List Nat → Nat → Nat → Nat
  | 0, _, _, i => i
  | fuel + 1, s, d, i =>
    if h : i < s.length then
      if s.get ⟨i, h⟩ = d then skipDelims fuel s d (i + 1) else i
    else i

/-- Second scan of SplitString (Gedo.h:1630-1659), the one that produces
the segments (the first scan only counts parts to pre-reserve capacity and
has no effect on the result): walk `i` from the current position; at a
delimiter, emit the segment `[prev, i)` if non-empty, skip the delimiter
run and continue with `prev` at the new position; at the end emit the
final segment `[prev, len)` if non-empty.  `fuel` bounds the recursion;
every use supplies at least `s.length + 1 - i`. -/
def splitGo : Nat → List Nat → Nat → Nat → Nat → List (List Nat)
  | 0, _, _, _, _ => []
  | fuel + 1, s, d, i, prev =>
    if h : i < s.length then
      if s.get ⟨i, h⟩ = d then
        (if i - prev ≠ 0 then [CopyString s prev i] else []) ++
          splitGo fuel s d (skipDelims (fuel + 1) s d i) (skipDelims (fuel + 1) s d i)
      else
        splitGo fuel s d (i + 1) prev
    else
      if s.length - prev ≠ 0 then [CopyString s prev s.length] else []

/-- SplitString (Gedo.h:1597-1661): scans `len = StringLength(string)`
bytes from position 0; for a NUL-free byte list `len` is `s.length`
(theorem `StringLength_eq_length`). -/
def SplitString (s : List Nat) (d : Nat) : List (List Nat) :=
  splitGo (s.length + 1) s d 0 0

/-- Append loop of ConcatStrings (Gedo.h:1508-1515): for each string,
`result.append(strings[i].data())` (the bytes up to the first NUL), then
`result.append(seperator)` when a non-zero separator is given and the
string is not the last one. -/
def concatGo (sep : Nat) : List (List Nat) → List Nat
  | [] => []
  | [x] => cstrOf x
  | x :: y :: t =>
    cstrOf x ++ (if sep ≠ 0 then [sep] else []) ++ concatGo sep (y :: t)

/-- Size computation of ConcatStrings (Gedo.h:1495-1504) in `size_t`
arithmetic: the sum of the strings' sizes, plus `stringsCount - 1` when a
non-zero separator is given — all modulo `2 ^ 64`, so `stringsCount - 1`
underflows when `stringsCount = 0`. -/
def concatResultSize (sizes : List Nat) (sep : Nat) : Nat :=
  let base := sizes.foldl (fun acc n => (acc + n) % 2 ^ 64) 0
  if sep ≠ 0 then (base + (sizes.length + 2 ^ 64 - 1) % 2 ^ 64) % 2 ^ 64
  else base

/-- ConcatStrings (Gedo.h:1493-1517): the pair of the `resultSize` passed
to `result.reserve` and the content of the returned String. -/
def ConcatStrings (strings : List (List Nat)) (sep : Nat) : Nat × List Nat :=
  (concatResultSize (strings.map List.length) sep, concatGo sep strings)

/-!
Theorems.  Each claim of the specification is settled below; general
lemmas shared between claims come first where needed.
-/

/-- C1, counterexample: a LinearAllocator of capacity 1 serves
`AllocateMemoryBlock(1)` (a block with `size = 1`), but the subsequent
`FreeMemoryBlock` on that exact block returns `false` — the claim says it
returns `true`.  The block's one-past-end pointer equals the arena's
one-past-end pointer, and `IsPointerInsideMemoryBlock` is end-exclusive,
so `IsMemoryBlockInside` rejects every block that touches the arena's
end. -/
theorem C1_counterexample :
    (linearAllocate (createLinearAllocator 1 1) (fun _ => 0) 1).ok = true ∧
    (linearAllocate (createLinearAllocator 1 1) (fun _ => 0) 1).blk.size = 1 ∧
    (linearFree (linearAllocate (createLinearAllocator 1 1) (fun _ => 0) 1).alloc
        (linearAllocate (createLinearAllocator 1 1) (fun _ => 0) 1).blk).1 = false := by
  decide

/-- C5, counterexample: `MallocAllocator::FreeMemoryBlock` performs no
range/ownership check.  On a fresh MallocAllocator (which has issued
nothing, so the pointer 5 lies in no tracked range) it returns `true` and
nulls the caller's block, where the claim requires `false` and an
unmodified block. -/
theorem C5_counterexample :
    (mallocFree ⟨5, 3⟩).ret = true ∧ (mallocFree ⟨5, 3⟩).blk = ⟨0, 0⟩ ∧
    ¬ ((mallocFree ⟨5, 3⟩).ret = false ∧ (mallocFree ⟨5, 3⟩).blk = ⟨5, 3⟩) := by
  decide

/-- C7, counterexample: on a LinearAllocator with arena base 1 and
capacity 4, `AllocateMemoryBlock(0)` succeeds and returns a block with
`size = 0` whose `data` pointer is the (non-null) arena cursor, so the
claimed invariant `size == 0 ⇔ data == null` fails on the returned
block. -/
theorem C7_counterexample :
    (linearAllocate (createLinearAllocator 1 4) (fun _ => 0) 0).ok = true ∧
    (linearAllocate (createLinearAllocator 1 4) (fun _ => 0) 0).blk.size = 0 ∧
    ¬ ((linearAllocate (createLinearAllocator 1 4) (fun _ => 0) 0).blk.data = 0) := by
  decide

/-- C2, counterexample: (a) a fresh `Array<T>` (with `sizeof(T) = 1`)
taken to `count = capacity = 2` by `resize(2)` grows on `push_back` to
capacity `2*count = 4`, not `max(8, 2*count) = 8`; (b) after `N = 0`
push_back calls the capacity is 0, not the smallest element of
`8, 16, 32, …` that is `≥ 0` (which is 8). -/
theorem C2_counterexample :
    ((arrayResize 1 initHeap emptyArray 2).2.count = 2 ∧
      arrayCapacity 1 (arrayResize 1 initHeap emptyArray 2).2 = 2 ∧
      arrayCapacity 1
        (arrayPushBack 1 (arrayResize 1 initHeap emptyArray 2).1
          (arrayResize 1 initHeap emptyArray 2).2 0).2 = 4 ∧
      ¬ (arrayCapacity 1
          (arrayPushBack 1 (arrayResize 1 initHeap emptyArray 2).1
            (arrayResize 1 initHeap emptyArray 2).2 0).2 = max 8 (2 * 2))) ∧
    (arrayCapacity 1 (arrayPushN 1 0 (initHeap, emptyArray)).2 = 0 ∧
      ¬ (arrayCapacity 1 (arrayPushN 1 0 (initHeap, emptyArray)).2 = 8)) := by
  decide

/-- C6: code bug, evaluated at the failing input.  Starting from an empty
String, nine `append('a')` calls leave `count = 9` and `block.size = 9`:
the byte at index `count` does not lie inside the owned block, so no zero
terminator is stored inside the block, contradicting the spec's terminator
invariant.  The slip is `String::capacity()` returning `block.size`
although `reserve(s)` allocates `s + 1` bytes precisely to keep one
terminator byte beyond the usable capacity. -/
theorem C6_terminator_code_bug :
    (appendCharN 97 9 (initHeap, emptyString)).2.count = 9 ∧
    (appendCharN 97 9 (initHeap, emptyString)).2.block.size = 9 ∧
    ¬ ((appendCharN 97 9 (initHeap, emptyString)).2.count <
        (appendCharN 97 9 (initHeap, emptyString)).2.block.size) := by
  decide

/-- C8: moving an `Array` (by move construction or move assignment)
transfers allocator, block and count to the destination and resets the
source to the allocator-less empty state; the source's destructor then
frees nothing, while the destination's destructor frees exactly the block
the source would have freed — so the transferred memory is released once,
by the destination. -/
theorem C8_move_empties_source (a : ArrayState) :
    ((arrayMoveCtor a).2.count = 0 ∧ (arrayMoveCtor a).2.block = ⟨0, 0⟩ ∧
      (arrayMoveCtor a).2.allocator = none ∧
      arrayDtorFree (arrayMoveCtor a).2 = none) ∧
    ((arrayMoveCtor a).1 = a ∧
      arrayDtorFree (arrayMoveCtor a).1 = arrayDtorFree a) ∧
    (∀ dest : ArrayState,
      (arrayMoveAssign dest a).1 = (arrayMoveCtor a).1 ∧
      (arrayMoveAssign dest a).2 = (arrayMoveCtor a).2) := by
  refine ⟨⟨rfl, rfl, rfl, by simp [arrayDtorFree, arrayMoveCtor]⟩, ⟨rfl, rfl⟩,
    fun dest => ⟨rfl, rfl⟩⟩

/-- C10: with `stringsCount = 0` and a non-zero separator, the `size_t`
computation `resultSize += (stringsCount - 1)` in ConcatStrings underflows
to `2 ^ 64 - 1` (instead of yielding 0), and that value is what gets
passed to `reserve`. -/
theorem C10_concat_empty_underflow (sep : Nat) (hsep : sep ≠ 0) :
    (ConcatStrings [] sep).1 = 2 ^ 64 - 1 ∧ ¬ ((ConcatStrings [] sep).1 = 0) := by
  have h : (ConcatStrings [] sep).1 = 2 ^ 64 - 1 := by
    show concatResultSize [] sep = 2 ^ 64 - 1
    simp [concatResultSize, hsep]
  exact ⟨h, by rw [h]; decide⟩

/-- Witness for C10 at the concrete separator byte 10. -/
theorem C10_witness :
    ((10:Nat) ≠ 0) ∧ (ConcatStrings [] 10).1 = 2 ^ 64 - 1 :=
  ⟨by decide, (C10_concat_empty_underflow 10 (by decide)).1⟩

/-- C1, amended: `MallocAllocator::AllocateMemoryBlock(n)` returns a block
with `size = n` and `n` zero bytes, and `FreeMemoryBlock` on it returns
`true` and nulls the caller's block.  For a LinearAllocator, when the
request fits (`offset + n ≤ capacity`) the allocation likewise returns a
zero-filled block of size `n`; the subsequent `FreeMemoryBlock` returns
`true` and nulls the block exactly when the block's one-past-end pointer
lies strictly inside the arena (`offset + n < capacity`), and returns
`false` leaving the block unchanged when the block reaches the arena's end
(`offset + n = capacity`). -/
theorem C1_allocator_roundtrip_amended :
    (∀ (h : MallocHeap) (n : Nat),
      (mallocAllocate h n).2.size = n ∧
      (∀ a, (mallocAllocate h n).2.data ≤ a → a < (mallocAllocate h n).2.data + n →
        (mallocAllocate h n).1.mem a = 0) ∧
      (mallocFree (mallocAllocate h n).2).ret = true ∧
      (mallocFree (mallocAllocate h n).2).blk = ⟨0, 0⟩) ∧
    (∀ (la : LinearAllocator) (m : Nat → Nat) (n : Nat),
      la.offset + n ≤ la.arena.size →
      (linearAllocate la m n).ok = true ∧
      (linearAllocate la m n).blk.size = n ∧
      (∀ a, (linearAllocate la m n).blk.data ≤ a →
        a < (linearAllocate la m n).blk.data + n → (linearAllocate la m n).mem a = 0) ∧
      (la.offset + n < la.arena.size →
        linearFree (linearAllocate la m n).alloc (linearAllocate la m n).blk =
          (true, ⟨0, 0⟩)) ∧
      (la.offset + n = la.arena.size →
        linearFree (linearAllocate la m n).alloc (linearAllocate la m n).blk =
          (false, (linearAllocate la m n).blk))) := by
  constructor
  · intro h n
    refine ⟨rfl, ?_, rfl, rfl⟩
    intro a h1 h2
    show ZeroMemoryBlock h.mem ⟨h.next, n⟩ a = 0
    simp only [ZeroMemoryBlock]
    rw [if_pos ⟨h1, h2⟩]
  · intro la m n hle
    have he : linearAllocate la m n =
        ⟨⟨la.offset + n, la.arena⟩, ZeroMemoryBlock m ⟨la.offset + la.arena.data, n⟩,
          ⟨la.offset + la.arena.data, n⟩, true⟩ := by
      simp [linearAllocate, hle]
    rw [he]
    refine ⟨rfl, rfl, ?_, ?_, ?_⟩
    · intro a h1 h2
      show ZeroMemoryBlock m ⟨la.offset + la.arena.data, n⟩ a = 0
      simp only [ZeroMemoryBlock]
      rw [if_pos ⟨h1, h2⟩]
    · intro hlt
      have hin : IsMemoryBlockInside la.arena ⟨la.offset + la.arena.data, n⟩ = true := by
        simp only [IsMemoryBlockInside, IsPointerInsideMemoryBlock, Bool.and_eq_true,
          decide_eq_true_eq]
        omega
      simp [linearFree, hin]
    · intro heq
      have hout : IsMemoryBlockInside la.arena ⟨la.offset + la.arena.data, n⟩ = false := by
        simp only [IsMemoryBlockInside, IsPointerInsideMemoryBlock, Bool.and_eq_false_iff,
          decide_eq_false_iff_not]
        omega
      simp [linearFree, hout]

/-- Witness for C1 (amended) on a fresh heap and on a LinearAllocator with
arena base 1 and capacity 8, allocating 3 bytes. -/
theorem C1_witness :
    (mallocAllocate initHeap 3).2.size = 3 ∧
    (mallocFree (mallocAllocate initHeap 3).2).ret = true ∧
    (linearAllocate (createLinearAllocator 1 8) (fun _ => 0) 3).ok = true ∧
    (linearAllocate (createLinearAllocator 1 8) (fun _ => 0) 3).blk.size = 3 ∧
    linearFree (linearAllocate (createLinearAllocator 1 8) (fun _ => 0) 3).alloc
      (linearAllocate (createLinearAllocator 1 8) (fun _ => 0) 3).blk = (true, ⟨0, 0⟩) :=
  ⟨(C1_allocator_roundtrip_amended.1 initHeap 3).1,
   (C1_allocator_roundtrip_amended.1 initHeap 3).2.2.1,
   (C1_allocator_roundtrip_amended.2 (createLinearAllocator 1 8) (fun _ => 0) 3
      (by decide)).1,
   (C1_allocator_roundtrip_amended.2 (createLinearAllocator 1 8) (fun _ => 0) 3
      (by decide)).2.1,
   (C1_allocator_roundtrip_amended.2 (createLinearAllocator 1 8) (fun _ => 0) 3
      (by decide)).2.2.2.1 (by decide)⟩

/-- C5, amended: for a LinearAllocator, `FreeMemoryBlock` with a block
whose pointer lies outside the arena returns `false` without modifying the
caller's block (and without asserting).  `MallocAllocator::FreeMemoryBlock`
has no tracked-range check at all: for every block with a non-null pointer
— owned or foreign — it frees the pointer, returns `true` and nulls the
caller's block (it asserts only on a null pointer). -/
theorem C5_foreign_free_amended :
    (∀ (la : LinearAllocator) (blk : MemoryBlock),
      IsPointerInsideMemoryBlock blk.data la.arena = false →
      linearFree la blk = (false, blk)) ∧
    (∀ blk : MemoryBlock, blk.data ≠ 0 →
      (mallocFree blk).ret = true ∧ (mallocFree blk).blk = ⟨0, 0⟩ ∧
      (mallocFree blk).ok = true) := by
  constructor
  · intro la blk hout
    have hin : IsMemoryBlockInside la.arena blk = false := by
      simp [IsMemoryBlockInside, hout]
    simp [linearFree, hin]
  · intro blk hne
    exact ⟨rfl, rfl, by simp [mallocFree, hne]⟩

/-- Witness for C5 (amended): a block at address 99 is outside the arena
`[10, 15)` and its free returns `false` unchanged; a foreign non-null
block freed through the malloc allocator yields `true`. -/
theorem C5_witness :
    linearFree ⟨0, ⟨10, 5⟩⟩ ⟨99, 2⟩ = (false, ⟨99, 2⟩) ∧
    (mallocFree ⟨5, 3⟩).ret = true ∧ (mallocFree ⟨5, 3⟩).ok = true :=
  ⟨C5_foreign_free_amended.1 ⟨0, ⟨10, 5⟩⟩ ⟨99, 2⟩ (by decide),
   (C5_foreign_free_amended.2 ⟨5, 3⟩ (by decide)).1,
   (C5_foreign_free_amended.2 ⟨5, 3⟩ (by decide)).2.2⟩

/-- C7, amended: `AllocateMemoryBlock(0)` succeeds on both allocators and
returns an empty block (`size = 0`), but the block's `data` pointer is not
null — for a LinearAllocator it is the current arena cursor
`offset + arena.data`, and for the malloc allocator it is malloc's fresh
non-null pointer — so the returned block violates the claimed invariant
`size == 0 ⇔ data == null`. -/
theorem C7_alloc_zero_amended :
    (∀ (la : LinearAllocator) (m : Nat → Nat), la.offset ≤ la.arena.size →
      (linearAllocate la m 0).ok = true ∧
      (linearAllocate la m 0).blk.size = 0 ∧
      (linearAllocate la m 0).blk.data = la.offset + la.arena.data ∧
      (la.arena.data ≠ 0 → (linearAllocate la m 0).blk.data ≠ 0)) ∧
    (∀ h : MallocHeap, 0 < h.next →
      (mallocAllocate h 0).2.size = 0 ∧ (mallocAllocate h 0).2.data ≠ 0) := by
  constructor
  · intro la m hle
    have hu : linearAllocate la m 0 =
        ⟨⟨la.offset + 0, la.arena⟩, ZeroMemoryBlock m ⟨la.offset + la.arena.data, 0⟩,
          ⟨la.offset + la.arena.data, 0⟩, true⟩ := by
      simp [linearAllocate, hle]
    rw [hu]
    exact ⟨rfl, rfl, rfl, fun hd => by simp; omega⟩
  · intro h hn
    exact ⟨rfl, by simp [mallocAllocate]; omega⟩

/-- Witness for C7 (amended) on a LinearAllocator with arena base 1,
capacity 4 and on a fresh heap. -/
theorem C7_witness :
    (linearAllocate (createLinearAllocator 1 4) (fun _ => 0) 0).ok = true ∧
    (linearAllocate (createLinearAllocator 1 4) (fun _ => 0) 0).blk.size = 0 ∧
    (linearAllocate (createLinearAllocator 1 4) (fun _ => 0) 0).blk.data ≠ 0 ∧
    (mallocAllocate initHeap 0).2.size = 0 ∧ (mallocAllocate initHeap 0).2.data ≠ 0 :=
  ⟨(C7_alloc_zero_amended.1 (createLinearAllocator 1 4) (fun _ => 0) (by decide)).1,
   (C7_alloc_zero_amended.1 (createLinearAllocator 1 4) (fun _ => 0) (by decide)).2.1,
   (C7_alloc_zero_amended.1 (createLinearAllocator 1 4) (fun _ => 0) (by decide)).2.2.2
     (by decide),
   (C7_alloc_zero_amended.2 initHeap (by decide)).1,
   (C7_alloc_zero_amended.2 initHeap (by decide)).2⟩

/-- Behaviour of a sequence of LinearAllocator::AllocateMemoryBlock calls:
the arena is never changed; the offset advances by exactly the sum of the
issued block sizes and never exceeds the arena size; every issued block
lies between the pre-run cursor and the arena's end; and issued blocks are
in strictly increasing, non-overlapping address order. -/
theorem runLinearAllocs_spec :
    ∀ (reqs : List Nat) (la : LinearAllocator) (m : Nat → Nat),
      la.offset ≤ la.arena.size →
      (runLinearAllocs la m reqs).alloc.arena = la.arena ∧
      (runLinearAllocs la m reqs).alloc.offset =
        la.offset + ((runLinearAllocs la m reqs).blks.map MemoryBlock.size).sum ∧
      (runLinearAllocs la m reqs).alloc.offset ≤ la.arena.size ∧
      (∀ b ∈ (runLinearAllocs la m reqs).blks,
        la.arena.data + la.offset ≤ b.data ∧
          b.data + b.size ≤ la.arena.data + la.arena.size) ∧
      (runLinearAllocs la m reqs).blks.Pairwise
        (fun b1 b2 => b1.data + b1.size ≤ b2.data) := by
  intro reqs
  induction reqs with
  | nil =>
    intro la m hle
    simp [runLinearAllocs, hle]
  | cons n ns ih =>
    intro la m hle
    by_cases hc : la.offset + n ≤ la.arena.size
    · have halloc : linearAllocate la m n =
          ⟨⟨la.offset + n, la.arena⟩, ZeroMemoryBlock m ⟨la.offset + la.arena.data, n⟩,
            ⟨la.offset + la.arena.data, n⟩, true⟩ := by
        simp [linearAllocate, hc]
      have hrun : runLinearAllocs la m (n :: ns) =
          ⟨(runLinearAllocs ⟨la.offset + n, la.arena⟩
              (ZeroMemoryBlock m ⟨la.offset + la.arena.data, n⟩) ns).alloc,
            (runLinearAllocs ⟨la.offset + n, la.arena⟩
              (ZeroMemoryBlock m ⟨la.offset + la.arena.data, n⟩) ns).mem,
            ⟨la.offset + la.arena.data, n⟩ ::
              (runLinearAllocs ⟨la.offset + n, la.arena⟩
                (ZeroMemoryBlock m ⟨la.offset + la.arena.data, n⟩) ns).blks⟩ := by
        simp [runLinearAllocs, halloc]
      obtain ⟨ih1, ih2, ih3, ih4, ih5⟩ :=
        ih ⟨la.offset + n, la.arena⟩ (ZeroMemoryBlock m ⟨la.offset + la.arena.data, n⟩) hc
      dsimp only at ih1 ih2 ih3 ih4
      rw [hrun]
      dsimp only
      refine ⟨ih1, ?_, by omega, ?_, ?_⟩
      · simp only [List.map_cons, List.sum_cons]
        omega
      · intro b hb
        rcases List.mem_cons.1 hb with hb | hb
        · subst hb
          dsimp only
          omega
        · have h4b := ih4 b hb
          omega
      · refine List.pairwise_cons.2 ⟨?_, ih5⟩
        intro b hb
        have h4b := ih4 b hb
        dsimp only
        omega
    · have halloc : linearAllocate la m n = ⟨la, m, ⟨0, 0⟩, false⟩ := by
        simp [linearAllocate, hc]
      have hrun : runLinearAllocs la m (n :: ns) =
          ⟨(runLinearAllocs la m ns).alloc, (runLinearAllocs la m ns).mem,
            (runLinearAllocs la m ns).blks⟩ := by
        simp [runLinearAllocs, halloc]
      rw [hrun]
      obtain ⟨ih1, ih2, ih3, ih4, ih5⟩ := ih la m hle
      exact ⟨ih1, ih2, ih3, ih4, ih5⟩

/-- C3: for a LinearAllocator of capacity `C` (arena base `base`), any
sequence of allocation requests issues blocks whose sizes sum to the final
offset and never exceed `C`, whose ranges all lie inside the arena, and
which are pairwise non-overlapping (in increasing address order); a single
`AllocateMemoryBlock` advances the offset by exactly the requested size
when it fits, and fails (the assert fires) leaving the offset unchanged
when the request exceeds the remaining capacity. -/
theorem C3_arena_monotonicity :
    ∀ (base C : Nat) (m : Nat → Nat) (reqs : List Nat),
      (((runLinearAllocs (createLinearAllocator base C) m reqs).blks.map
          MemoryBlock.size).sum =
        (runLinearAllocs (createLinearAllocator base C) m reqs).alloc.offset) ∧
      ((runLinearAllocs (createLinearAllocator base C) m reqs).alloc.offset ≤ C) ∧
      (∀ b ∈ (runLinearAllocs (createLinearAllocator base C) m reqs).blks,
        base ≤ b.data ∧ b.data + b.size ≤ base + C) ∧
      (runLinearAllocs (createLinearAllocator base C) m reqs).blks.Pairwise
        (fun b1 b2 => b1.data + b1.size ≤ b2.data) ∧
      (∀ (la : LinearAllocator) (mm : Nat → Nat) (n : Nat),
        (la.offset + n ≤ la.arena.size →
          (linearAllocate la mm n).alloc.offset = la.offset + n ∧
            (linearAllocate la mm n).ok = true) ∧
        (la.arena.size < la.offset + n →
          (linearAllocate la mm n).ok = false ∧
            (linearAllocate la mm n).alloc = la)) := by
  intro base C m reqs
  obtain ⟨h1, h2, h3, h4, h5⟩ :=
    runLinearAllocs_spec reqs (createLinearAllocator base C) m
      (by simp [createLinearAllocator])
  have e1 : (createLinearAllocator base C).offset = 0 := rfl
  have e2 : (createLinearAllocator base C).arena.data = base := rfl
  have e3 : (createLinearAllocator base C).arena.size = C := rfl
  refine ⟨by omega, by omega, ?_, h5, ?_⟩
  · intro b hb
    have h4b := h4 b hb
    omega
  · intro la mm n
    constructor
    · intro hfit
      simp [linearAllocate, hfit]
    · intro hover
      have : ¬ (la.offset + n ≤ la.arena.size) := by omega
      simp [linearAllocate, this]

/-- Witness for C3: an arena of capacity 16 at base 1 given requests
`[10, 10]` issues only the first block (offset 10 ≤ 16); the second call,
made at offset 10, fails with the offset unchanged, while a fitting call
advances the offset by exactly its size. -/
theorem C3_witness :
    (((runLinearAllocs (createLinearAllocator 1 16) (fun _ => 0) [10, 10]).blks.map
        MemoryBlock.size).sum =
      (runLinearAllocs (createLinearAllocator 1 16) (fun _ => 0) [10, 10]).alloc.offset) ∧
    ((runLinearAllocs (createLinearAllocator 1 16) (fun _ => 0) [10, 10]).alloc.offset ≤ 16) ∧
    ((linearAllocate ⟨0, ⟨1, 16⟩⟩ (fun _ => 0) 10).alloc.offset = 0 + 10 ∧
      (linearAllocate ⟨0, ⟨1, 16⟩⟩ (fun _ => 0) 10).ok = true) ∧
    ((linearAllocate ⟨10, ⟨1, 16⟩⟩ (fun _ => 0) 10).ok = false ∧
      (linearAllocate ⟨10, ⟨1, 16⟩⟩ (fun _ => 0) 10).alloc = ⟨10, ⟨1, 16⟩⟩) :=
  ⟨(C3_arena_monotonicity 1 16 (fun _ => 0) [10, 10]).1,
   (C3_arena_monotonicity 1 16 (fun _ => 0) [10, 10]).2.1,
   ((C3_arena_monotonicity 1 16 (fun _ => 0) [10, 10]).2.2.2.2 ⟨0, ⟨1, 16⟩⟩
      (fun _ => 0) 10).1 (by decide),
   ((C3_arena_monotonicity 1 16 (fun _ => 0) [10, 10]).2.2.2.2 ⟨10, ⟨1, 16⟩⟩
      (fun _ => 0) 10).2 (by decide)⟩

/-- C4: after any sequence of allocations on a LinearAllocator of capacity
`C`, `ResetAllocator` sets the offset to 0 and the next
`AllocateMemoryBlock(C)` succeeds, returning the whole arena range. -/
theorem C4_arena_reset :
    ∀ (base C : Nat) (m : Nat → Nat) (reqs : List Nat),
      (linearReset (runLinearAllocs (createLinearAllocator base C) m reqs).alloc).offset
          = 0 ∧
      (linearAllocate
          (linearReset (runLinearAllocs (createLinearAllocator base C) m reqs).alloc)
          (runLinearAllocs (createLinearAllocator base C) m reqs).mem C).ok = true ∧
      (linearAllocate
          (linearReset (runLinearAllocs (createLinearAllocator base C) m reqs).alloc)
          (runLinearAllocs (createLinearAllocator base C) m reqs).mem C).blk.size = C ∧
      (linearAllocate
          (linearReset (runLinearAllocs (createLinearAllocator base C) m reqs).alloc)
          (runLinearAllocs (createLinearAllocator base C) m reqs).mem C).blk.data
          = base := by
  intro base C m reqs
  have harena :=
    (runLinearAllocs_spec reqs (createLinearAllocator base C) m
      (by simp [createLinearAllocator])).1
  have harena2 : (runLinearAllocs (createLinearAllocator base C) m reqs).alloc.arena
      = ⟨base, C⟩ := by rw [harena]; rfl
  have hreset : linearReset (runLinearAllocs (createLinearAllocator base C) m reqs).alloc
      = ⟨0, ⟨base, C⟩⟩ := by
    simp [linearReset, harena2]
  rw [hreset]
  have hu : linearAllocate ⟨0, ⟨base, C⟩⟩
      (runLinearAllocs (createLinearAllocator base C) m reqs).mem C =
      ⟨⟨C, ⟨base, C⟩⟩,
        ZeroMemoryBlock (runLinearAllocs (createLinearAllocator base C) m reqs).mem
          ⟨base, C⟩, ⟨base, C⟩, true⟩ := by
    simp [linearAllocate]
  rw [hu]
  exact ⟨rfl, rfl, rfl, rfl⟩

/-- Array::push_back without growth: when `count < capacity()` the block
is untouched and only the count increments. -/
theorem arrayPushBack_nogrow (esz : Nat) (h : MallocHeap) (a : ArrayState) (v : Nat)
    (hc : a.count < arrayCapacity esz a) :
    (arrayPushBack esz h a v).2 = ⟨a.allocator, a.block, a.count + 1⟩ := by
  have hnge : ¬ (a.count ≥ arrayCapacity esz a) := Nat.not_le.mpr hc
  simp [arrayPushBack, hnge]

/-- Array::push_back with growth: when `count ≥ capacity()` the new block
has exactly `(count ? 2*count : 8) * sizeof(T)` bytes and the count still
just increments. -/
theorem arrayPushBack_grow (esz : Nat) (h : MallocHeap) (a : ArrayState) (v : Nat)
    (hc : arrayCapacity esz a ≤ a.count) :
    (arrayPushBack esz h a v).2.count = a.count + 1 ∧
    (arrayPushBack esz h a v).2.block.size =
      (if a.count ≠ 0 then 2 * a.count else 8) * esz := by
  have ht : arrayCapacity esz a < (if a.count ≠ 0 then 2 * a.count else 8) := by
    rcases Nat.eq_zero_or_pos a.count with h0 | h0
    · rw [h0]
      simp only [ne_eq, not_true_eq_false, if_false]
      omega
    · have : a.count ≠ 0 := by omega
      rw [if_pos this]
      omega
  simp only [arrayPushBack, ge_iff_le, if_pos hc, arrayResize, if_pos ht, arrayReserve,
    if_pos ht, mallocAllocate]
  constructor <;> trivial

/-- Capacity invariant along push_back-only traces: the capacity `c` is a
value of the doubling sequence `8, 16, 32, …` that accommodates the
current count `N`, and is either the base 8 or was forced by a count
greater than half of it. -/
def capOK (N c : Nat) : Prop :=
  (∃ k, c = 8 * 2 ^ k) ∧ N ≤ c ∧ (c = 8 ∨ c < 2 * N)

/-- One push_back preserves the capacity invariant. -/
theorem push_capOK (esz : Nat) (he : 0 < esz) (h : MallocHeap) (a : ArrayState)
    (N : Nat) (hN : 1 ≤ N) (hcount : a.count = N)
    (hsize : ∃ c, a.block.size = c * esz ∧ capOK N c) :
    (arrayPushBack esz h a 0).2.count = N + 1 ∧
    ∃ c, (arrayPushBack esz h a 0).2.block.size = c * esz ∧ capOK (N + 1) c := by
  obtain ⟨c, hs, ⟨⟨k, hk⟩, hNc, halt⟩⟩ := hsize
  have hcap : arrayCapacity esz a = c := by
    simp [arrayCapacity, hs, Nat.mul_div_cancel _ he]
  rcases Nat.lt_or_ge N c with hlt | hge
  · have hng := arrayPushBack_nogrow esz h a 0 (by omega)
    rw [hng]
    refine ⟨by simp [hcount], c, by simp [hs], ⟨k, hk⟩, by omega, ?_⟩
    rcases halt with h8 | hgrow
    · exact Or.inl h8
    · exact Or.inr (by omega)
  · have heq : N = c := by omega
    have hg := arrayPushBack_grow esz h a 0 (by omega)
    have hne : a.count ≠ 0 := by omega
    rw [if_pos hne] at hg
    refine ⟨by rw [hg.1, hcount], 2 * N, by rw [hg.2, hcount], ?_, by omega, ?_⟩
    · exact ⟨k + 1, by rw [heq, hk]; ring⟩
    · right
      omega

/-- The first push_back on an empty Array establishes the invariant with
the base capacity 8. -/
theorem first_push_capOK (esz : Nat) (_he : 0 < esz) (h : MallocHeap) :
    (arrayPushBack esz h emptyArray 0).2.count = 1 ∧
    ∃ c, (arrayPushBack esz h emptyArray 0).2.block.size = c * esz ∧ capOK 1 c := by
  have hg := arrayPushBack_grow esz h emptyArray 0 (by simp [arrayCapacity, emptyArray])
  rw [show emptyArray.count = 0 from rfl] at hg
  norm_num at hg
  exact ⟨hg.1, 8, hg.2, ⟨0, by norm_num⟩, by omega, Or.inl rfl⟩

/-- Iterating push_back preserves the capacity invariant. -/
theorem pushN_capOK (esz : Nat) (he : 0 < esz) :
    ∀ (n N : Nat) (h : MallocHeap) (a : ArrayState),
      1 ≤ N → a.count = N → (∃ c, a.block.size = c * esz ∧ capOK N c) →
      (arrayPushN esz n (h, a)).2.count = N + n ∧
      ∃ c, (arrayPushN esz n (h, a)).2.block.size = c * esz ∧ capOK (N + n) c := by
  intro n
  induction n with
  | zero =>
    intro N h a hN hcount hsz
    simpa [arrayPushN, hcount] using hsz
  | succ n ih =>
    intro N h a hN hcount hsz
    obtain ⟨hc1, hc2⟩ := push_capOK esz he h a N hN hcount hsz
    have : arrayPushN esz (n + 1) (h, a) =
        arrayPushN esz n ((arrayPushBack esz h a 0).1, (arrayPushBack esz h a 0).2) := rfl
    rw [this]
    obtain ⟨r1, r2⟩ :=
      ih (N + 1) (arrayPushBack esz h a 0).1 (arrayPushBack esz h a 0).2 (by omega) hc1 hc2
    exact ⟨by omega, by rw [show N + (n + 1) = N + 1 + n by omega]; exact r2⟩

/-- C2, amended: `push_back` grows only when `count == capacity` (when
`count < capacity` the block is untouched); on growth the new capacity is
`2*count` when `count > 0` and 8 when `count == 0` — this equals
`max(8, 2*count)` for `count = 0` and `count ≥ 4`, in particular at every
growth point of a push_back-only trace, but not for `1 ≤ count ≤ 3`
(states reachable through `resize`/`reserve`); consequently after `N ≥ 1`
sequential push_back calls starting from an empty container, `count = N`
and the capacity is the smallest element of `8, 16, 32, …` that is
`≥ N`. -/
theorem C2_growth_amended (esz : Nat) (he : 1 ≤ esz) :
    (∀ (h : MallocHeap) (a : ArrayState) (v : Nat),
      a.count < arrayCapacity esz a →
      (arrayPushBack esz h a v).2.block = a.block ∧
      (arrayPushBack esz h a v).2.count = a.count + 1) ∧
    (∀ (h : MallocHeap) (a : ArrayState) (v : Nat),
      arrayCapacity esz a ≤ a.count →
      (arrayPushBack esz h a v).2.block.size =
        (if a.count ≠ 0 then 2 * a.count else 8) * esz ∧
      (arrayPushBack esz h a v).2.count = a.count + 1) ∧
    (∀ N : Nat, 1 ≤ N →
      (arrayPushN esz N (initHeap, emptyArray)).2.count = N ∧
      ∃ k, arrayCapacity esz (arrayPushN esz N (initHeap, emptyArray)).2 = 8 * 2 ^ k ∧
        N ≤ 8 * 2 ^ k ∧ ∀ j, N ≤ 8 * 2 ^ j → 8 * 2 ^ k ≤ 8 * 2 ^ j) := by
  refine ⟨?_, ?_, ?_⟩
  · intro h a v hc
    rw [arrayPushBack_nogrow esz h a v hc]
    exact ⟨rfl, rfl⟩
  · intro h a v hc
    obtain ⟨h1, h2⟩ := arrayPushBack_grow esz h a v hc
    exact ⟨h2, h1⟩
  · intro N hN
    obtain ⟨m, rfl⟩ : ∃ m, N = 1 + m := ⟨N - 1, by omega⟩
    have hstep : arrayPushN esz (1 + m) (initHeap, emptyArray) =
        arrayPushN esz m
          ((arrayPushBack esz initHeap emptyArray 0).1,
            (arrayPushBack esz initHeap emptyArray 0).2) := by
      rw [show 1 + m = m + 1 by omega]
      rfl
    obtain ⟨hb1, hb2⟩ := first_push_capOK esz (by omega) initHeap
    obtain ⟨r1, c, rc, ⟨⟨k, hk⟩, hNc, halt⟩⟩ :=
      pushN_capOK esz (by omega) m 1 (arrayPushBack esz initHeap emptyArray 0).1
        (arrayPushBack esz initHeap emptyArray 0).2 le_rfl hb1 hb2
    rw [hstep]
    refine ⟨r1, k, ?_, by omega, ?_⟩
    · simp [arrayCapacity, rc, Nat.mul_div_cancel _ (show 0 < esz by omega), hk]
    · intro j hj
      have h2j : 1 ≤ 2 ^ j := Nat.one_le_two_pow
      rcases halt with h8 | hgrow
      · have h88 : (8:Nat) * 2 ^ k = 8 := by rw [← hk]; exact h8
        omega
      · have hlt : 8 * 2 ^ k < 8 * 2 ^ (j + 1) := by
          have hpow : (2:Nat) * (8 * 2 ^ j) = 8 * 2 ^ (j + 1) := by ring
          omega
        have hkj : k < j + 1 :=
          (Nat.pow_lt_pow_iff_right (by omega : 1 < 2)).1
            (Nat.lt_of_mul_lt_mul_left hlt)
        exact Nat.mul_le_mul_left 8 (Nat.pow_le_pow_right (by omega) (by omega))

/-- Witness for C2 (amended) with `sizeof(T) = 1`: nine push_back calls on
an empty Array leave `count = 9` and capacity 16 (end-to-end scenario 3 of
the specification). -/
theorem C2_witness :
    ((1:Nat) ≤ 1) ∧
    (arrayPushN 1 9 (initHeap, emptyArray)).2.count = 9 ∧
    arrayCapacity 1 (arrayPushN 1 9 (initHeap, emptyArray)).2 = 16 :=
  ⟨by decide, ((C2_growth_amended 1 (by decide)).2.2 9 (by decide)).1, by decide⟩

/-- List.getD with default 0 agrees with List.get inside the bounds. -/
theorem getD_eq_get : ∀ (l : List Nat) (i : Nat) (h : i < l.length),
    l.getD i 0 = l.get ⟨i, h⟩
  | _ :: _, 0, _ => rfl
  | _ :: t, i + 1, h => getD_eq_get t i (Nat.lt_of_succ_lt_succ h)

/-- A NUL-free byte list read as a C string is the whole list. -/
theorem cstrOf_eq_self : ∀ (l : List Nat), (∀ x ∈ l, x ≠ 0) → cstrOf l = l
  | [], _ => rfl
  | a :: t, h => by
    have ha : a ≠ 0 := h a (List.mem_cons_self a t)
    have ht := cstrOf_eq_self t (fun x hx => h x (List.mem_cons_of_mem a hx))
    simp only [cstrOf] at ht ⊢
    rw [List.takeWhile_cons, if_pos (by simpa using ha), ht]

/-- StringLength of a NUL-free byte list is its length. -/
theorem StringLength_eq_length (s : List Nat) (h0 : ∀ x ∈ s, x ≠ 0) :
    StringLength s = s.length := by
  show (cstrOf s).length = s.length
  rw [cstrOf_eq_self s h0]

/-- CopyString is the slice `[a, b)` of the byte list. -/
theorem CopyString_eq_drop_take (s : List Nat) (a b : Nat) (hab : a ≤ b)
    (hb : b ≤ s.length) : CopyString s a b = (s.drop a).take (b - a) := by
  apply List.ext_getElem
  · simp [CopyString]
    omega
  · intro i h1 h2
    simp only [CopyString, List.getElem_map, List.getElem_range, List.getElem_take,
      List.getElem_drop]
    have hib : i < b - a := by simpa [CopyString] using h1
    rw [getD_eq_get s (a + i) (by omega)]
    simp [List.get_eq_getElem]

/-- Elements of a CopyString slice are elements of the source list. -/
theorem CopyString_mem (s : List Nat) (a b : Nat) (hab : a ≤ b) (hb : b ≤ s.length) :
    ∀ x ∈ CopyString s a b, x ∈ s := by
  rw [CopyString_eq_drop_take s a b hab hb]
  intro x hx
  exact List.mem_of_mem_drop (List.mem_of_mem_take hx)

/-- Splitting a list at a delimiter occurrence: the suffix from `prev` is
the slice `[prev, i)` followed by the delimiter and the suffix from
`i + 1`. -/
theorem drop_split (s : List Nat) (d : Nat) (i prev : Nat) (hpi : prev ≤ i)
    (h : i < s.length) (hd : s.get ⟨i, h⟩ = d) :
    s.drop prev = CopyString s prev i ++ d :: s.drop (i + 1) := by
  rw [CopyString_eq_drop_take s prev i hpi (le_of_lt h)]
  conv_lhs => rw [← List.take_append_drop (i - prev) (s.drop prev)]
  congr 1
  rw [List.drop_drop, show prev + (i - prev) = i from by omega]
  rw [List.drop_eq_getElem_cons h]
  simp only [List.get_eq_getElem] at hd
  rw [hd]

/-- The delimiter-run skip loop stops after one step when the next byte is
not a delimiter (the situation under the no-consecutive-delimiters
hypothesis). -/
theorem skipDelims_run (s : List Nat) (d : Nat) (i fuel : Nat)
    (hf : 2 ≤ fuel) (h1 : i < s.length) (hd : s.getD i 0 = d)
    (h2 : i + 1 < s.length) (hnd : s.getD (i + 1) 0 ≠ d) :
    skipDelims fuel s d i = i + 1 := by
  obtain ⟨f, rfl⟩ : ∃ f, fuel = f + 1 + 1 := ⟨fuel - 2, by omega⟩
  rw [getD_eq_get s i h1] at hd
  rw [getD_eq_get s (i + 1) h2] at hnd
  simp only [skipDelims, dif_pos h1, if_pos hd, dif_pos h2, if_neg hnd]

/-- With the scan position strictly inside the list and the current
segment delimiter-free, the split loop produces at least one segment. -/
theorem splitGo_ne_nil (s : List Nat) (d : Nat) :
    ∀ (fuel i prev : Nat), s.length - i < fuel → prev ≤ i → i ≤ s.length →
      prev < s.length → s.getD prev 0 ≠ d →
      (∀ k, prev ≤ k → k < i → s.getD k 0 ≠ d) →
      splitGo fuel s d i prev ≠ [] := by
  intro fuel
  induction fuel with
  | zero =>
    intro i prev hf
    omega
  | succ F ih =>
    intro i prev hf hpi hil hpl hfresh hseg
    by_cases h : i < s.length
    · by_cases hd : s.get ⟨i, h⟩ = d
      · have hne : i - prev ≠ 0 := by
          rcases Nat.lt_or_ge prev i with hlt | hge
          · omega
          · exfalso
            have hpe : prev = i := by omega
            apply hfresh
            rw [hpe, getD_eq_get s i h]
            exact hd
        simp only [splitGo]
        rw [dif_pos h, if_pos hd, if_pos hne]
        simp
      · have hdD : s.getD i 0 ≠ d := by
          rw [getD_eq_get s i h]
          exact hd
        simp only [splitGo, dif_pos h, if_neg hd]
        refine ih (i + 1) prev (by omega) (by omega) (by omega) hpl hfresh ?_
        intro k hk1 hk2
        rcases Nat.lt_or_ge k i with hk | hk
        · exact hseg k hk1 hk
        · rw [show k = i from by omega]
          exact hdD
    · have hne : s.length - prev ≠ 0 := by omega
      simp [splitGo, dif_neg h, hne]

/-- Main lemma for the split/concat round trip: under the
no-leading/trailing/consecutive-delimiter and NUL-free hypotheses,
re-concatenating (with the delimiter as separator) the segments the split
scan produces from position `i` (current segment starting at `prev`)
rebuilds the suffix `s.drop prev`. -/
theorem splitGo_concat (s : List Nat) (d : Nat) (hdz : d ≠ 0)
    (h0 : ∀ x ∈ s, x ≠ 0)
    (htrail : 0 < s.length → s.getD (s.length - 1) 0 ≠ d)
    (hcons : ∀ i, i < s.length - 1 → ¬(s.getD i 0 = d ∧ s.getD (i + 1) 0 = d)) :
    ∀ (fuel i prev : Nat), s.length - i < fuel → prev ≤ i → i ≤ s.length →
      (prev < s.length → s.getD prev 0 ≠ d) →
      (∀ k, prev ≤ k → k < i → s.getD k 0 ≠ d) →
      concatGo d (splitGo fuel s d i prev) = s.drop prev := by
  intro fuel
  induction fuel with
  | zero =>
    intro i prev hf
    omega
  | succ F ih =>
    intro i prev hf hpi hil hfresh hseg
    by_cases h : i < s.length
    · by_cases hd : s.get ⟨i, h⟩ = d
      · have hdD : s.getD i 0 = d := by
          rw [getD_eq_get s i h]
          exact hd
        have hprev : prev < i := by
          rcases Nat.lt_or_ge prev i with hlt | hge
          · exact hlt
          · exfalso
            exact hfresh (by omega) (by rw [show prev = i from by omega]; exact hdD)
        have hi1 : i + 1 < s.length := by
          by_contra hcon
          exact htrail (by omega) (by rw [show s.length - 1 = i from by omega]; exact hdD)
        have hnd : s.getD (i + 1) 0 ≠ d := fun hc => hcons i (by omega) ⟨hdD, hc⟩
        have hskip : skipDelims (F + 1) s d i = i + 1 :=
          skipDelims_run s d i (F + 1) (by omega) h hdD hi1 hnd
        have hne : i - prev ≠ 0 := by omega
        simp only [splitGo, dif_pos h, if_pos hd, hskip, if_pos hne]
        have hrest : splitGo F s d (i + 1) (i + 1) ≠ [] :=
          splitGo_ne_nil s d F (i + 1) (i + 1) (by omega) le_rfl (by omega) hi1 hnd
            (fun k hk1 hk2 => by omega)
        obtain ⟨r, rs, hr⟩ := List.exists_cons_of_ne_nil hrest
        rw [List.singleton_append, hr]
        have hcg : concatGo d (CopyString s prev i :: r :: rs) =
            cstrOf (CopyString s prev i) ++ [d] ++ concatGo d (r :: rs) := by
          simp [concatGo, hdz]
        rw [hcg, ← hr,
          ih (i + 1) (i + 1) (by omega) le_rfl (by omega) (fun _ => hnd)
            (fun k hk1 hk2 => by omega),
          cstrOf_eq_self (CopyString s prev i)
            (fun x hx => h0 x (CopyString_mem s prev i (by omega) (by omega) x hx)),
          drop_split s d i prev (by omega) h hd]
        simp
      · have hdD : s.getD i 0 ≠ d := by
          rw [getD_eq_get s i h]
          exact hd
        simp only [splitGo, dif_pos h, if_neg hd]
        refine ih (i + 1) prev (by omega) (by omega) (by omega) hfresh ?_
        intro k hk1 hk2
        rcases Nat.lt_or_ge k i with hk | hk
        · exact hseg k hk1 hk
        · rw [show k = i from by omega]
          exact hdD
    · by_cases hp : s.length - prev ≠ 0
      · simp only [splitGo, dif_neg h, if_pos hp]
        have hcg : concatGo d [CopyString s prev s.length] =
            cstrOf (CopyString s prev s.length) := rfl
        rw [hcg,
          cstrOf_eq_self (CopyString s prev s.length)
            (fun x hx =>
              h0 x (CopyString_mem s prev s.length (by omega) le_rfl x hx)),
          CopyString_eq_drop_take s prev s.length (by omega) le_rfl]
        apply List.take_of_length_le
        simp
      · simp only [splitGo, dif_neg h, if_neg hp]
        rw [show prev = s.length from by omega, List.drop_length]
        rfl

/-- C9: for a NUL-free byte string `s` with no leading, trailing or
consecutive occurrences of the (non-zero) delimiter `d`, concatenating the
segments of `SplitString(s, d)` with separator `d` via `ConcatStrings`
yields `s` again. -/
theorem C9_split_concat_roundtrip (s : List Nat) (d : Nat) (hdz : d ≠ 0)
    (h0 : ∀ x ∈ s, x ≠ 0)
    (hlead : 0 < s.length → s.getD 0 0 ≠ d)
    (htrail : 0 < s.length → s.getD (s.length - 1) 0 ≠ d)
    (hcons : ∀ i, i < s.length - 1 → ¬(s.getD i 0 = d ∧ s.getD (i + 1) 0 = d)) :
    (ConcatStrings (SplitString s d) d).2 = s := by
  show concatGo d (splitGo (s.length + 1) s d 0 0) = s
  rw [splitGo_concat s d hdz h0 htrail hcons (s.length + 1) 0 0 (by omega) le_rfl
    (by omega) hlead (fun k hk1 hk2 => by omega)]
  exact List.drop_zero s

/-- Witness for C9 on the byte string `hi,jk` (bytes 104 105 44 106 107)
with delimiter `,` (byte 44). -/
theorem C9_witness :
    ((44:Nat) ≠ 0) ∧ (∀ x ∈ [104, 105, 44, 106, 107], x ≠ 0) ∧
    (ConcatStrings (SplitString [104, 105, 44, 106, 107] 44) 44).2 =
      [104, 105, 44, 106, 107] :=
  ⟨by decide, by decide,
   C9_split_concat_roundtrip [104, 105, 44, 106, 107] 44 (by decide) (by decide)
     (by decide) (by decide) (by decide)⟩
